import Mathlib

/-!
Verification development for the VoiceSafe AI asynchronous analysis pipeline.

The definitions below are a shallow embedding of the Python sources:
  * `worker.py`   — score engine (`analyze_audio` and its helpers) and the
    worker loop (`main`), with Python floats modelled as real numbers;
  * `job_queue.py` — the rate limiter (`rate_limit_allow`) for both the
    Redis backend and the in-memory fallback, with wall-clock times
    modelled as rationals.

Store primitives used by the worker (`get_audio`, `del_audio`, `get_job`,
`set_job` of the `queue` module) are not present in the sources; they are
modelled from the spec as finite maps with an explicit not-found case.
-/

namespace VoiceSafe

/-! ## Score engine helpers (worker.py)

Python floats are modelled as real numbers, so the score-engine definitions
live in a noncomputable section. -/

noncomputable section ScoreEngine

/-- Embedding of `_clamp(x, a=0.0, b=100.0) = max(a, min(b, x))`
(worker.py line 35).  The `float(x)` conversion cannot fail on reals, so the
`except` branch is dropped. -/
def _clamp (x : ℝ) (a : ℝ := 0) (b : ℝ := 100) : ℝ :=
  max a (min b x)

open Classical in
/-- Embedding of `_sigmoid01` (worker.py lines 58-64): saturates to exactly
1.0 at or above 35 and to exactly 0.0 at or below -35, otherwise
`1/(1+exp(-x))`. -/
noncomputable def _sigmoid01 (x : ℝ) : ℝ :=
  if x ≥ 35 then 1
  else if x ≤ -35 then 0
  else 1 / (1 + Real.exp (-x))

/-- The raw acoustic descriptors extracted inside `analyze_audio`
(worker.py lines 132-153) before any scoring.  The librosa feature
extraction itself is numerical signal processing over the decoded waveform
and is treated as the input of the score engine, which is the pure function
the spec singles out. -/
structure RawFeatures where
  duration_s : ℝ
  sr : ℕ
  loader : String
  zcr : ℝ
  centroid : ℝ
  flatness : ℝ
  rolloff : ℝ
  mfcc_std : ℝ
  f0_mean : ℝ
  f0_std : ℝ
  jitter : ℝ
  rms_var : ℝ

/-- Embedding of `s_smooth = 1.0 - _clamp(jitter * 220.0, 0, 100) / 100.0` (line 155). -/
def s_smooth (f : RawFeatures) : ℝ := 1 - _clamp (f.jitter * 220) 0 100 / 100

/-- Embedding of `s_mfcc = 1.0 - _clamp(mfcc_std * 18.0, 0, 100) / 100.0` (line 156). -/
def s_mfcc (f : RawFeatures) : ℝ := 1 - _clamp (f.mfcc_std * 18) 0 100 / 100

/-- Embedding of `s_f0std = 1.0 - _clamp(f0_std * 0.45, 0, 100) / 100.0` (line 157). -/
def s_f0std (f : RawFeatures) : ℝ := 1 - _clamp (f.f0_std * 0.45) 0 100 / 100

/-- Embedding of `s_flat = _clamp(flatness * 140.0, 0, 100) / 100.0` (line 158). -/
def s_flat (f : RawFeatures) : ℝ := _clamp (f.flatness * 140) 0 100 / 100

/-- Embedding of `s_zcr = _clamp(zcr * 1300.0, 0, 100) / 100.0` (line 160). -/
def s_zcr (f : RawFeatures) : ℝ := _clamp (f.zcr * 1300) 0 100 / 100

/-- Embedding of `s_rmsvar = _clamp(rms_var * 85.0, 0, 100) / 100.0` (line 161). -/
def s_rmsvar (f : RawFeatures) : ℝ := _clamp (f.rms_var * 85) 0 100 / 100

/-- Embedding of `s_cent = _clamp((centroid / 5000.0) * 100.0, 0, 100) / 100.0` (line 162). -/
def s_cent (f : RawFeatures) : ℝ := _clamp ((f.centroid / 5000) * 100) 0 100 / 100

/-- Embedding of `compression_hint` (line 164). -/
def compression_hint (f : RawFeatures) : ℝ :=
  _clamp (((f.rolloff / 8000) - (f.centroid / 5000)) * 140 + 50) 0 100 / 100

/-- Embedding of `ai_raw` (line 166). -/
def ai_raw (f : RawFeatures) : ℝ :=
  (0.36 * s_smooth f) + (0.26 * s_mfcc f) + (0.22 * s_f0std f) + (0.16 * s_flat f)

/-- Embedding of `ai_prob = 100.0 * _sigmoid01((ai_raw - 0.52) * 6.0)` (line 167). -/
noncomputable def ai_prob (f : RawFeatures) : ℝ :=
  100 * _sigmoid01 ((ai_raw f - 0.52) * 6)

/-- Embedding of `stress_raw` (line 169). -/
def stress_raw (f : RawFeatures) : ℝ :=
  (0.48 * s_zcr f) + (0.32 * s_rmsvar f) + (0.20 * s_cent f)

/-- Embedding of `stress_level = 100.0 * _sigmoid01((stress_raw - 0.40) * 6.0)` (line 170). -/
noncomputable def stress_level (f : RawFeatures) : ℝ :=
  100 * _sigmoid01 ((stress_raw f - 0.40) * 6)

/-- Embedding of `scam_raw` (line 172). -/
noncomputable def scam_raw (f : RawFeatures) : ℝ :=
  (0.62 * (ai_prob f / 100)) + (0.28 * (stress_level f / 100)) + (0.10 * compression_hint f)

/-- Embedding of `scam_score = 100.0 * _sigmoid01((scam_raw - 0.48) * 7.0)` (line 173). -/
noncomputable def scam_score (f : RawFeatures) : ℝ :=
  100 * _sigmoid01 ((scam_raw f - 0.48) * 7)

open Classical in
/-- Round to the nearest integer with ties to even, the behaviour of
Python's `round` on exact halves. -/
noncomputable def roundHalfEven (y : ℝ) : ℤ :=
  if y - ⌊y⌋ < 1/2 then ⌊y⌋
  else if 1/2 < y - ⌊y⌋ then ⌊y⌋ + 1
  else if Even ⌊y⌋ then ⌊y⌋ else ⌊y⌋ + 1

/-- Python `round(x, n)`: round to `n` decimal digits, ties to even. -/
noncomputable def roundPy (n : ℕ) (x : ℝ) : ℝ :=
  (roundHalfEven (x * 10 ^ n) : ℝ) / 10 ^ n

open Classical in
/-- The flag construction of `analyze_audio` (worker.py lines 175-183):
conditional appends, in source order, to an initially empty list. -/
noncomputable def mkFlags (aiProb stressLevel compressionHint durationS : ℝ) :
    List String :=
  let flags : List String := []
  let flags := if aiProb ≥ 75 then
    flags ++ ["Synthetic voice characteristics (prototype)"] else flags
  let flags := if stressLevel ≥ 70 then
    flags ++ ["High vocal stress detected (prototype)"] else flags
  let flags := if compressionHint ≥ 0.72 then
    flags ++ ["High compression / telephony-like signal (prototype)"] else flags
  let flags := if durationS < 2.0 then
    flags ++ ["Very short sample (lower confidence)"] else flags
  flags

open Classical in
/-- The summary tiers of `analyze_audio` (worker.py lines 185-190). -/
noncomputable def summaryFor (scamScore : ℝ) : String :=
  if scamScore ≥ 75 then
    "High-risk pattern detected (prototype). Verify identity via official channels."
  else if scamScore ≥ 45 then
    "Moderate risk indicators detected (prototype). Stay cautious and verify the caller."
  else
    "Low risk indicators in this sample (prototype), but remain cautious."

/-- Default of the `APP_VERSION` environment variable (worker.py line 26). -/
def VERSION : String := "4.0.0-async"

/-- Default of the `MIN_DURATION_S` environment variable (worker.py line 30). -/
noncomputable def MIN_DURATION_S : ℝ := 0.6

/-- The result dictionary of `analyze_audio` (worker.py lines 192-205);
`meta` is flattened into `meta_*` fields. -/
structure AnalysisResult where
  summary : String
  scam_score : ℝ
  ai_voice_prob : ℝ
  stress_level : ℝ
  flags : List String
  voice_match : String
  meta_version : String
  meta_duration_s : ℝ
  meta_sr : ℕ
  meta_loader : String

open Classical in
/-- Embedding of `analyze_audio` (worker.py lines 125-205) as a function of
the configured minimum duration and the extracted raw features.  Raised
exceptions become `Except.error` carrying the exception message.  The
duration check (line 127) precedes feature extraction in the source; here
the features are an input, which does not change the returned value. -/
noncomputable def analyze_audio (minDuration : ℝ) (f : RawFeatures) :
    Except String AnalysisResult :=
  if f.duration_s < minDuration then .error "too_short_audio"
  else .ok {
    summary := summaryFor (scam_score f)
    scam_score := roundPy 1 (_clamp (scam_score f))
    ai_voice_prob := roundPy 1 (_clamp (ai_prob f))
    stress_level := roundPy 1 (_clamp (stress_level f))
    flags := mkFlags (ai_prob f) (stress_level f) (compression_hint f) f.duration_s
    voice_match := "Unknown"
    meta_version := VERSION
    meta_duration_s := roundPy 3 f.duration_s
    meta_sr := f.sr
    meta_loader := f.loader }

/-- A concrete feature vector (all descriptors zero) used as a sample
input in witnesses. -/
noncomputable def exampleFeatures : RawFeatures :=
  { duration_s := 1, sr := 16000, loader := "librosa", zcr := 0, centroid := 0,
    flatness := 0, rolloff := 0, mfcc_std := 0, f0_mean := 0, f0_std := 0,
    jitter := 0, rms_var := 0 }

end ScoreEngine

end VoiceSafe

namespace VoiceSafe

/-- Helper: the argument of the sigmoid in `ai_prob` rearranges into the
spec's `6·(weighted sum − 0.52)` shape. -/
theorem ai_raw_expand (f : RawFeatures) :
    (ai_raw f - 0.52) * 6 =
      6 * (0.36 * s_smooth f + 0.26 * s_mfcc f +
        0.22 * s_f0std f + 0.16 * s_flat f - 0.52) := by
  unfold ai_raw
  ring

/-- C1: `ai_prob` is exactly `100 · sigmoid(6·(0.36·smoothness +
0.26·cepstral_stability + 0.22·pitch_stability + 0.16·flatness − 0.52))`,
where the sigmoid returns exactly 1.0 at or above 35, exactly 0.0 at or
below −35, and `1/(1+exp(−x))` strictly in between. -/
theorem C1_ai_probability_formula :
    (∀ f : RawFeatures, ai_prob f =
        100 * _sigmoid01 (6 * (0.36 * s_smooth f + 0.26 * s_mfcc f +
          0.22 * s_f0std f + 0.16 * s_flat f - 0.52)))
    ∧ (∀ x : ℝ, 35 ≤ x → _sigmoid01 x = 1)
    ∧ (∀ x : ℝ, x ≤ -35 → _sigmoid01 x = 0)
    ∧ (∀ x : ℝ, -35 < x → x < 35 → _sigmoid01 x = 1 / (1 + Real.exp (-x))) := by
  refine ⟨fun f => ?_, fun x hx => ?_, fun x hx => ?_, fun x hx1 hx2 => ?_⟩
  · rw [ai_prob, ai_raw_expand]
  · rw [_sigmoid01, if_pos hx]
  · rw [_sigmoid01, if_neg (by linarith), if_pos hx]
  · rw [_sigmoid01, if_neg (by linarith), if_neg (by linarith)]

open Classical in
/-- C7: flags are appended in the fixed order synthetic-voice (ai ≥ 75),
vocal-stress (stress ≥ 70), compression (hint ≥ 0.72), short-sample
(duration < 2.0); the list never exceeds 4 entries; and when no condition
triggers the list is empty. -/
theorem C7_flags_deterministic_order :
    (∀ a s c d : ℝ, mkFlags a s c d =
        (if a ≥ 75 then ["Synthetic voice characteristics (prototype)"] else []) ++
        (if s ≥ 70 then ["High vocal stress detected (prototype)"] else []) ++
        (if c ≥ 0.72 then ["High compression / telephony-like signal (prototype)"] else []) ++
        (if d < 2.0 then ["Very short sample (lower confidence)"] else []))
    ∧ (∀ a s c d : ℝ, (mkFlags a s c d).length ≤ 4)
    ∧ (∀ a s c d : ℝ, a < 75 → s < 70 → c < 0.72 → 2.0 ≤ d →
        mkFlags a s c d = []) := by
  have h1 : ∀ a s c d : ℝ, mkFlags a s c d =
      (if a ≥ 75 then ["Synthetic voice characteristics (prototype)"] else []) ++
      (if s ≥ 70 then ["High vocal stress detected (prototype)"] else []) ++
      (if c ≥ 0.72 then ["High compression / telephony-like signal (prototype)"] else []) ++
      (if d < 2.0 then ["Very short sample (lower confidence)"] else []) := by
    intro a s c d
    simp only [mkFlags]
    split_ifs <;> simp
  refine ⟨h1, fun a s c d => ?_, fun a s c d ha hs hc hd => ?_⟩
  · rw [h1]
    split_ifs <;> simp
  · rw [h1, if_neg (by exact not_le.mpr ha), if_neg (by exact not_le.mpr hs),
      if_neg (by exact not_le.mpr hc), if_neg (by exact not_lt.mpr hd)]
    simp

/-- C7 witness: the theorem instantiated at a feature point triggering no
flag, and the length bound at the same point. -/
theorem C7_flags_deterministic_order_witness :
    mkFlags 10 10 0 5 = [] ∧ (mkFlags 10 10 0 5).length ≤ 4 :=
  ⟨C7_flags_deterministic_order.2.2 10 10 0 5 (by norm_num) (by norm_num)
      (by norm_num) (by norm_num),
   C7_flags_deterministic_order.2.1 10 10 0 5⟩

/-- C1 witness: the theorem instantiated at the saturation boundaries, at
0, and at a concrete feature vector. -/
theorem C1_ai_probability_formula_witness :
    _sigmoid01 35 = 1 ∧ _sigmoid01 (-35) = 0 ∧
    _sigmoid01 0 = 1 / (1 + Real.exp (-0)) ∧
    ai_prob exampleFeatures =
      100 * _sigmoid01 (6 * (0.36 * s_smooth exampleFeatures +
        0.26 * s_mfcc exampleFeatures + 0.22 * s_f0std exampleFeatures +
        0.16 * s_flat exampleFeatures - 0.52)) :=
  ⟨C1_ai_probability_formula.2.1 35 (by norm_num),
   C1_ai_probability_formula.2.2.1 (-35) (by norm_num),
   C1_ai_probability_formula.2.2.2 0 (by norm_num) (by norm_num),
   C1_ai_probability_formula.1 exampleFeatures⟩

/-! ## Safe reductions (worker.py lines 43-55)

IEEE-754 values are modelled as either a finite real or one of the
non-finite values NaN / +Inf / −Inf. -/

/-- A float64 array entry: finite (carrying its real value) or non-finite. -/
inductive FloatVal where
  | finite (x : ℝ)
  | nan
  | posInf
  | negInf

/-- Embedding of `np.isfinite` on a `FloatVal`. -/
def FloatVal.isFinite : FloatVal → Bool
  | .finite _ => true
  | _ => false

/-- Embedding of `_finite` (worker.py lines 43-45): keep the finite entries,
in order, as real numbers. -/
def _finite (xs : List FloatVal) : List ℝ :=
  xs.filterMap fun v => match v with
    | .finite x => some x
    | _ => none

/-- Embedding of `_safe_mean` (worker.py lines 48-50): filter first, then
`np.mean` if anything remains, else 0.0. -/
noncomputable def _safe_mean (xs : List FloatVal) : ℝ :=
  let l := _finite xs
  if l.length ≠ 0 then l.sum / l.length else 0

/-- Embedding of `_safe_std` (worker.py lines 53-55): filter first, then the
population standard deviation `np.std` if anything remains, else 0.0. -/
noncomputable def _safe_std (xs : List FloatVal) : ℝ :=
  let l := _finite xs
  if l.length ≠ 0 then
    Real.sqrt ((l.map fun x => (x - l.sum / l.length) ^ 2).sum / l.length)
  else 0

/-- C9: the reductions discard non-finite entries first and return exactly
0.0 on an empty remainder, so empty or all-non-finite inputs give 0.0; by
construction every value that survives the filter is a finite entry of the
input, so no NaN/Inf can flow into the mean or standard deviation. -/
theorem C9_safe_reductions_zero :
    (∀ xs : List FloatVal, (∀ v ∈ xs, v.isFinite = false) →
        _finite xs = [] ∧ _safe_mean xs = 0 ∧ _safe_std xs = 0)
    ∧ (∀ (xs : List FloatVal) (x : ℝ), x ∈ _finite xs → FloatVal.finite x ∈ xs)
    ∧ _safe_mean [] = 0 ∧ _safe_std [] = 0 := by
  have hnil : ∀ xs : List FloatVal, (∀ v ∈ xs, v.isFinite = false) →
      _finite xs = [] := by
    intro xs h
    rw [_finite, List.filterMap_eq_nil_iff]
    intro v hv
    cases v with
    | finite x => exact absurd (h _ hv) (by simp [FloatVal.isFinite])
    | nan => rfl
    | posInf => rfl
    | negInf => rfl
  refine ⟨fun xs h => ⟨hnil xs h, ?_, ?_⟩, fun xs x hx => ?_, ?_, ?_⟩
  · rw [_safe_mean]
    simp [hnil xs h]
  · rw [_safe_std]
    simp [hnil xs h]
  · rw [_finite] at hx
    obtain ⟨v, hv, hfv⟩ := List.mem_filterMap.mp hx
    cases v with
    | finite y => simp_all
    | nan => simp at hfv
    | posInf => simp at hfv
    | negInf => simp at hfv
  · simp [_safe_mean, _finite]
  · simp [_safe_std, _finite]

/-- C9 witness: the theorem instantiated at a concrete all-non-finite
array. -/
theorem C9_safe_reductions_zero_witness :
    _finite [FloatVal.nan, FloatVal.posInf, FloatVal.negInf] = [] ∧
    _safe_mean [FloatVal.nan, FloatVal.posInf, FloatVal.negInf] = 0 ∧
    _safe_std [FloatVal.nan, FloatVal.posInf, FloatVal.negInf] = 0 :=
  C9_safe_reductions_zero.1 _ (by
    intro v hv
    simp only [List.mem_cons, List.not_mem_nil, or_false] at hv
    rcases hv with rfl | rfl | rfl <;> rfl)

/-! ## Rate limiter (job_queue.py lines 78-109)

`rate_limit_allow` has a Redis path (INCR + EXPIRE on a per-window bucket)
and an in-memory fallback (timestamp list pruned to a sliding window).
Wall-clock instants are modelled as rationals; the two backends are
embedded as separate pure state transformers.

Redis bucket names `"{prefix}:rl:{key}:{idx}"` are modelled as the pair
`(key, idx)`; this is faithful because `idx` is the final, colon-free
segment of the bucket name, so the pair determines the name and vice
versa.  The `EXPIRE window_s + 2` call is modelled as a no-op: a bucket's
window index is derived from the wall clock and is never revisited after
more than `window_s` seconds, so within any window the TTL of `W + 2`
cannot elapse and expiry only reclaims dead buckets. -/

/-- The window index `int(time.time() // window_s)` (job_queue.py
line 89). -/
def windowIdx (now W : ℚ) : ℤ := ⌊now / W⌋

/-- In-memory rate-limit state: `_mem_rate`, a map from client key to the
list of admitted timestamps (job_queue.py line 35). -/
abbrev MemState := String → List ℚ

/-- Redis rate-limit state: counter per (client key, window index) bucket;
absent buckets read 0. -/
abbrev RedisState := String → ℤ → ℕ

/-- The in-memory fallback of `rate_limit_allow` (job_queue.py lines
100-109): prune timestamps older than `window_s`, deny if at least `limit`
remain, otherwise record `now` and admit. -/
def rate_limit_allow_mem (st : MemState) (key : String) (limit : ℕ)
    (window_s now : ℚ) : MemState × Bool :=
  let arr := (st key).filter fun t => now - t < window_s
  if limit ≤ arr.length then
    (fun k => if k = key then arr else st k, false)
  else
    (fun k => if k = key then arr ++ [now] else st k, true)

/-- The Redis path of `rate_limit_allow` (job_queue.py lines 91-96):
increment the current window's bucket and admit iff the incremented value
is at most `limit`. -/
def rate_limit_allow_redis (st : RedisState) (key : String) (limit : ℕ)
    (window_s now : ℚ) : RedisState × Bool :=
  let idx := windowIdx now window_s
  let v := st key idx + 1
  (fun k i => if k = key ∧ i = idx then v else st k i, v ≤ limit)

/-- Run the in-memory limiter over a sequence of call instants for one
client key, collecting the returned booleans. -/
def memRun (st : MemState) (key : String) (limit : ℕ) (window_s : ℚ) :
    List ℚ → MemState × List Bool
  | [] => (st, [])
  | t :: ts =>
    let p := rate_limit_allow_mem st key limit window_s t
    let q := memRun p.1 key limit window_s ts
    (q.1, p.2 :: q.2)

/-- Run the Redis limiter over a sequence of call instants for one client
key, collecting the returned booleans. -/
def redisRun (st : RedisState) (key : String) (limit : ℕ) (window_s : ℚ) :
    List ℚ → RedisState × List Bool
  | [] => (st, [])
  | t :: ts =>
    let p := rate_limit_allow_redis st key limit window_s t
    let q := redisRun p.1 key limit window_s ts
    (q.1, p.2 :: q.2)

/-- Unfolding lemma for `memRun` on a cons. -/
theorem memRun_cons (st : MemState) (key : String) (limit : ℕ)
    (window_s t : ℚ) (ts : List ℚ) :
    memRun st key limit window_s (t :: ts) =
      ((memRun (rate_limit_allow_mem st key limit window_s t).1
          key limit window_s ts).1,
        (rate_limit_allow_mem st key limit window_s t).2 ::
        (memRun (rate_limit_allow_mem st key limit window_s t).1
          key limit window_s ts).2) := rfl

/-- Unfolding lemma for `redisRun` on a cons. -/
theorem redisRun_cons (st : RedisState) (key : String) (limit : ℕ)
    (window_s t : ℚ) (ts : List ℚ) :
    redisRun st key limit window_s (t :: ts) =
      ((redisRun (rate_limit_allow_redis st key limit window_s t).1
          key limit window_s ts).1,
        (rate_limit_allow_redis st key limit window_s t).2 ::
        (redisRun (rate_limit_allow_redis st key limit window_s t).1
          key limit window_s ts).2) := rfl

/-- Two instants in the same window index are less than a full window
apart. -/
theorem sub_lt_window_of_windowIdx_eq {a b W : ℚ} (hW : 0 < W)
    (h : windowIdx a W = windowIdx b W) : a - b < W := by
  have hfa : a / W < ⌊a / W⌋ + 1 := Int.lt_floor_add_one _
  have hfb : (⌊b / W⌋ : ℚ) ≤ b / W := Int.floor_le _
  rw [windowIdx, windowIdx] at h
  rw [h] at hfa
  have hdiv : (a - b) / W < 1 := by
    rw [sub_div]
    linarith
  calc a - b = (a - b) / W * W := by field_simp
  _ < 1 * W := by exact mul_lt_mul_of_pos_right hdiv hW
  _ = W := one_mul W

/-- An admitting in-memory call leaves the pruned list with the new
timestamp appended. -/
theorem mem_allow_true_state {st : MemState} {key : String} {limit : ℕ}
    {W t : ℚ} (h : (rate_limit_allow_mem st key limit W t).2 = true) :
    (rate_limit_allow_mem st key limit W t).1 key =
      (st key).filter (fun s => t - s < W) ++ [t] := by
  by_cases hc : limit ≤ ((st key).filter fun s => t - s < W).length
  · simp [rate_limit_allow_mem, hc] at h
  · simp [rate_limit_allow_mem, hc]

/-- An in-memory call finding at least `limit` surviving timestamps is
denied. -/
theorem mem_deny_of_full {st : MemState} {key : String} {limit : ℕ}
    {W now : ℚ}
    (h : limit ≤ ((st key).filter fun t => now - t < W).length) :
    (rate_limit_allow_mem st key limit W now).2 = false := by
  simp [rate_limit_allow_mem, h]

/-- Invariant of an all-admitted in-memory run inside one window index:
the previously recorded same-window timestamps together with the new call
instants survive in the state, as a sublist. -/
theorem memRun_sublist {key : String} {limit : ℕ} {W : ℚ} {k : ℤ}
    (hW : 0 < W) :
    ∀ (ts : List ℚ) (st : MemState) (pre : List ℚ),
      List.Sublist pre (st key) → (∀ t ∈ pre, windowIdx t W = k) →
      (∀ t ∈ ts, windowIdx t W = k) →
      (∀ b ∈ (memRun st key limit W ts).2, b = true) →
      List.Sublist (pre ++ ts) ((memRun st key limit W ts).1 key) := by
  intro ts
  induction ts with
  | nil =>
    intro st pre hpre _ _ _
    simpa [memRun] using hpre
  | cons t ts ih =>
    intro st pre hpre hpreW htsW hall
    rw [memRun_cons] at hall
    have hA2 : (rate_limit_allow_mem st key limit W t).2 = true :=
      hall _ (List.mem_cons_self _ _)
    have hA1 := mem_allow_true_state hA2
    have hkeep : ∀ s ∈ pre, ((fun s => decide (t - s < W)) s = true) := by
      intro s hs
      have : t - s < W :=
        sub_lt_window_of_windowIdx_eq hW
          (by rw [htsW t (List.mem_cons_self _ _), hpreW s hs])
      simpa using this
    have hpre' : List.Sublist (pre ++ [t])
        ((rate_limit_allow_mem st key limit W t).1 key) := by
      rw [hA1]
      refine List.Sublist.append ?_ (List.Sublist.refl _)
      have := hpre.filter (fun s => decide (t - s < W))
      rwa [List.filter_eq_self.mpr hkeep] at this
    have htail := ih (rate_limit_allow_mem st key limit W t).1 (pre ++ [t])
      hpre'
      (by
        intro s hs
        rcases List.mem_append.mp hs with hs | hs
        · exact hpreW s hs
        · simp only [List.mem_singleton] at hs
          exact hs ▸ htsW t (List.mem_cons_self _ _))
      (fun s hs => htsW s (List.mem_cons_of_mem _ hs))
      (fun b hb => hall b (List.mem_cons_of_mem _ hb))
    rw [memRun_cons, List.append_cons]
    exact htail

/-- A `redisRun` of calls inside window index `k` adds the number of calls
to that window's bucket for the key, admitted or not. -/
theorem redisRun_counter {key : String} {limit : ℕ} {W : ℚ} {k : ℤ} :
    ∀ (ts : List ℚ) (st : RedisState), (∀ t ∈ ts, windowIdx t W = k) →
      (redisRun st key limit W ts).1 key k = st key k + ts.length := by
  intro ts
  induction ts with
  | nil => intro st _; simp [redisRun]
  | cons t ts ih =>
    intro st hts
    rw [redisRun_cons]
    have hidx : windowIdx t W = k := hts t (List.mem_cons_self _ _)
    have hstep : (rate_limit_allow_redis st key limit W t).1 key k =
        st key k + 1 := by
      simp [rate_limit_allow_redis, hidx]
    rw [ih _ (fun s hs => hts s (List.mem_cons_of_mem _ hs)), hstep]
    simp [List.length_cons]
    omega

/-- A `redisRun` leaves every bucket of a window index none of its calls
falls in untouched. -/
theorem redisRun_frame {key : String} {limit : ℕ} {W : ℚ} {i : ℤ} :
    ∀ (ts : List ℚ) (st : RedisState) (k' : String),
      (∀ t ∈ ts, windowIdx t W ≠ i) →
      (redisRun st key limit W ts).1 k' i = st k' i := by
  intro ts
  induction ts with
  | nil => intro st k' _; simp [redisRun]
  | cons t ts ih =>
    intro st k' hts
    rw [redisRun_cons]
    rw [ih _ _ (fun s hs => hts s (List.mem_cons_of_mem _ hs))]
    have hidx : windowIdx t W ≠ i := hts t (List.mem_cons_self _ _)
    simp [rate_limit_allow_redis]
    intro _ hcontra
    exact absurd hcontra.symm hidx

/-- A full window after `t`, the window index has strictly advanced. -/
theorem windowIdx_lt_of_window_elapsed {t now W : ℚ} (hW : 0 < W)
    (h : t + W ≤ now) : windowIdx t W < windowIdx now W := by
  have hdiv : t / W + 1 ≤ now / W := by
    have := (div_le_div_iff_of_pos_right hW).mpr h
    rwa [add_div, div_self hW.ne'] at this
  have : (⌊t / W⌋ : ℚ) + 1 ≤ now / W := le_trans (by
    have := Int.floor_le (t / W)
    linarith) hdiv
  have hfloor : ⌊t / W⌋ + 1 ≤ ⌊now / W⌋ := by
    exact_mod_cast Int.le_floor.mpr (by exact_mod_cast this)
  rw [windowIdx, windowIdx]
  omega

/-- C2: on either backend, after `limit` admitted calls whose instants all
fall in the same window index, a further call in that window index is
denied; and a call a full window after every recorded admission is
admitted (for a positive limit), even if the previous window was
saturated. -/
theorem C2_rate_limiter_window_semantics :
    (∀ (st₀ : MemState) (key : String) (limit : ℕ) (W now : ℚ) (k : ℤ)
        (ts : List ℚ), 0 < W →
        (∀ t ∈ ts, windowIdx t W = k) → ts.length = limit →
        (∀ b ∈ (memRun st₀ key limit W ts).2, b = true) →
        windowIdx now W = k →
        (rate_limit_allow_mem (memRun st₀ key limit W ts).1
          key limit W now).2 = false)
    ∧ (∀ (st : MemState) (key : String) (limit : ℕ) (W now : ℚ),
        0 < limit → (∀ t ∈ st key, W ≤ now - t) →
        (rate_limit_allow_mem st key limit W now).2 = true)
    ∧ (∀ (st₀ : RedisState) (key : String) (limit : ℕ) (W now : ℚ) (k : ℤ)
        (ts : List ℚ), 0 < W →
        (∀ t ∈ ts, windowIdx t W = k) → ts.length = limit →
        windowIdx now W = k →
        (rate_limit_allow_redis (redisRun st₀ key limit W ts).1
          key limit W now).2 = false)
    ∧ (∀ (key : String) (limit : ℕ) (W now : ℚ) (ts : List ℚ),
        0 < W → 0 < limit → (∀ t ∈ ts, t + W ≤ now) →
        (rate_limit_allow_redis (redisRun (fun _ _ => 0) key limit W ts).1
          key limit W now).2 = true) := by
  refine ⟨?_, ?_, ?_, ?_⟩
  · intro st₀ key limit W now k ts hW hts hlen hall hnow
    have hsub : List.Sublist ts ((memRun st₀ key limit W ts).1 key) := by
      simpa using memRun_sublist hW ts st₀ [] (List.nil_sublist _)
        (by simp) hts hall
    apply mem_deny_of_full
    have hkeep : ∀ s ∈ ts, ((fun s => decide (now - s < W)) s = true) := by
      intro s hs
      simpa using sub_lt_window_of_windowIdx_eq hW (by rw [hnow, hts s hs])
    have hfil := hsub.filter (fun s => decide (now - s < W))
    rw [List.filter_eq_self.mpr hkeep] at hfil
    calc limit = ts.length := hlen.symm
    _ ≤ _ := hfil.length_le
  · intro st key limit W now hl hts
    have hfil : (st key).filter (fun t => now - t < W) = [] := by
      rw [List.filter_eq_nil_iff]
      intro a ha
      simpa using not_lt.mpr (by linarith [hts a ha])
    simp only [rate_limit_allow_mem, hfil, List.length_nil]
    rw [if_neg (by omega)]
  · intro st₀ key limit W now k ts hW hts hlen hnow
    have hcnt := @redisRun_counter key limit W k ts st₀ hts
    simp only [rate_limit_allow_redis, hnow, hcnt, hlen]
    simp only [decide_eq_false_iff_not]
    omega
  · intro key limit W now ts hW hl hts
    have hfr := @redisRun_frame key limit W (windowIdx now W)
      ts (fun _ _ => 0) key
      (fun t ht => ne_of_lt (windowIdx_lt_of_window_elapsed hW (hts t ht)))
    simp only [rate_limit_allow_redis, hfr]
    simp only [decide_eq_true_eq]
    omega

/-- C2 witness: a 60-second window with limit 3 and admissions at instants
10, 20, 30; the fourth call at 40 is denied on both backends, and a call
at 100 (a full window after every admission) is admitted on both
backends. -/
theorem C2_rate_limiter_window_semantics_witness :
    (rate_limit_allow_mem (memRun (fun _ => []) "client" 3 60 [10, 20, 30]).1
      "client" 3 60 40).2 = false
    ∧ (rate_limit_allow_mem (fun _ => [10, 20, 30]) "client" 3 60 100).2 = true
    ∧ (rate_limit_allow_redis
        (redisRun (fun _ _ => 0) "client" 3 60 [10, 20, 30]).1
        "client" 3 60 40).2 = false
    ∧ (rate_limit_allow_redis
        (redisRun (fun _ _ => 0) "client" 3 60 [10, 20, 30]).1
        "client" 3 60 100).2 = true :=
  ⟨C2_rate_limiter_window_semantics.1 (fun _ => []) "client" 3 60 40 0
      [10, 20, 30] (by norm_num)
      (by intro t ht; fin_cases ht <;> norm_num [windowIdx])
      (by norm_num)
      (by norm_num [memRun, rate_limit_allow_mem])
      (by norm_num [windowIdx]),
   C2_rate_limiter_window_semantics.2.1 (fun _ => [10, 20, 30]) "client" 3 60 100
      (by norm_num)
      (by
        intro t ht
        simp only [List.mem_cons, List.not_mem_nil, or_false] at ht
        rcases ht with rfl | rfl | rfl <;> norm_num),
   C2_rate_limiter_window_semantics.2.2.1 (fun _ _ => 0) "client" 3 60 40 0
      [10, 20, 30] (by norm_num)
      (by intro t ht; fin_cases ht <;> norm_num [windowIdx])
      (by norm_num)
      (by norm_num [windowIdx]),
   C2_rate_limiter_window_semantics.2.2.2 "client" 3 60 100 [10, 20, 30]
      (by norm_num) (by norm_num)
      (by intro t ht; fin_cases ht <;> norm_num)⟩

/-- An in-memory call with room left is admitted and appends its instant
to the pruned list. -/
theorem mem_allow_room {st : MemState} {key : String} {limit : ℕ}
    {W now : ℚ}
    (hc : ¬ limit ≤ ((st key).filter fun t => now - t < W).length) :
    (rate_limit_allow_mem st key limit W now).2 = true ∧
    (rate_limit_allow_mem st key limit W now).1 key =
      (st key).filter (fun t => now - t < W) ++ [now] := by
  constructor <;> simp [rate_limit_allow_mem, hc]

/-- An in-memory call whose pruning discards every recorded timestamp is
admitted (for a positive limit) and leaves exactly its own instant. -/
theorem mem_allow_fresh {st : MemState} {key : String} (limit : ℕ)
    {W now : ℚ} (h : ∀ t ∈ st key, ¬(now - t < W)) (hl : 0 < limit) :
    (rate_limit_allow_mem st key limit W now).2 = true ∧
    (rate_limit_allow_mem st key limit W now).1 key = [now] := by
  have hfil : (st key).filter (fun t => now - t < W) = [] := by
    rw [List.filter_eq_nil_iff]
    intro a ha
    simpa using h a ha
  have hc : ¬ limit ≤ ((st key).filter fun t => now - t < W).length := by
    rw [hfil, List.length_nil]
    omega
  exact ⟨(mem_allow_room hc).1, by rw [(mem_allow_room hc).2, hfil]; simp⟩

/-- Lemma: `memRun` splits over list append. -/
theorem memRun_append {key : String} {limit : ℕ} {W : ℚ} :
    ∀ (l₁ : List ℚ) (st : MemState) (l₂ : List ℚ),
      memRun st key limit W (l₁ ++ l₂) =
        ((memRun (memRun st key limit W l₁).1 key limit W l₂).1,
         (memRun st key limit W l₁).2 ++
           (memRun (memRun st key limit W l₁).1 key limit W l₂).2) := by
  intro l₁
  induction l₁ with
  | nil => intro st l₂; simp [memRun]
  | cons t l₁ ih =>
    intro st l₂
    simp only [List.cons_append, memRun_cons, ih, List.append_eq]

/-- Lemma: `redisRun` splits over list append. -/
theorem redisRun_append {key : String} {limit : ℕ} {W : ℚ} :
    ∀ (l₁ : List ℚ) (st : RedisState) (l₂ : List ℚ),
      redisRun st key limit W (l₁ ++ l₂) =
        ((redisRun (redisRun st key limit W l₁).1 key limit W l₂).1,
         (redisRun st key limit W l₁).2 ++
           (redisRun (redisRun st key limit W l₁).1 key limit W l₂).2) := by
  intro l₁
  induction l₁ with
  | nil => intro st l₂; simp [redisRun]
  | cons t l₁ ih =>
    intro st l₂
    simp only [List.cons_append, redisRun_cons, ih, List.append_eq]

/-- An in-memory run of `n` identical instants starting from `m` copies of
that instant admits every call while `m + n` stays within the limit. -/
theorem memRun_replicate {key : String} {limit : ℕ} {W : ℚ} (hW : 0 < W) :
    ∀ (n m : ℕ) (a : ℚ) (st : MemState), st key = List.replicate m a →
      m + n ≤ limit →
      (memRun st key limit W (List.replicate n a)).2 = List.replicate n true ∧
      (memRun st key limit W (List.replicate n a)).1 key =
        List.replicate (m + n) a := by
  intro n
  induction n with
  | zero =>
    intro m a st hst _
    exact ⟨rfl, by simpa using hst⟩
  | succ n ih =>
    intro m a st hst hmn
    have hfil : ((st key).filter fun t => a - t < W) = List.replicate m a := by
      rw [hst]
      refine List.filter_eq_self.mpr ?_
      intro b hb
      rw [List.eq_of_mem_replicate hb]
      simpa using hW
    have hc : ¬ limit ≤ ((st key).filter fun t => a - t < W).length := by
      rw [hfil, List.length_replicate]
      omega
    have hroom := mem_allow_room hc
    have hstep : (rate_limit_allow_mem st key limit W a).1 key =
        List.replicate (m + 1) a := by
      rw [hroom.2, hfil, List.replicate_succ']
    have hrec := ih (m + 1) a _ hstep (by omega)
    rw [List.replicate_succ, memRun_cons]
    refine ⟨?_, ?_⟩
    · rw [hroom.1, hrec.1, List.replicate_succ]
    · rw [hrec.2]
      congr 1
      omega

/-- A Redis run of `n` identical instants admits every call while the
bucket counter stays within the limit, and adds `n` to the counter. -/
theorem redisRun_replicate {key : String} {limit : ℕ} {W : ℚ} :
    ∀ (n : ℕ) (a : ℚ) (st : RedisState),
      st key (windowIdx a W) + n ≤ limit →
      (redisRun st key limit W (List.replicate n a)).2 =
        List.replicate n true ∧
      (redisRun st key limit W (List.replicate n a)).1 key (windowIdx a W) =
        st key (windowIdx a W) + n := by
  intro n
  induction n with
  | zero => intro a st _; simp [redisRun]
  | succ n ih =>
    intro a st hcnt
    have hstep1 : (rate_limit_allow_redis st key limit W a).2 = true := by
      simp only [rate_limit_allow_redis, decide_eq_true_eq]
      omega
    have hstep2 : (rate_limit_allow_redis st key limit W a).1 key
        (windowIdx a W) = st key (windowIdx a W) + 1 := by
      simp [rate_limit_allow_redis]
    have hrec := ih a ((rate_limit_allow_redis st key limit W a).1)
      (by rw [hstep2]; omega)
    rw [List.replicate_succ, redisRun_cons]
    refine ⟨?_, ?_⟩
    · rw [hstep1, hrec.1, List.replicate_succ]
    · rw [hrec.2, hstep2]
      omega

/-- C5: with limit `N` and window `W` there is a sequence of `2·N` calls
from one client key, lying in two adjacent window indices (straddling the
single boundary at instant `W`), that are all admitted — on the in-memory
fallback and on the Redis backend alike: `N` calls at instant 0 and `N`
calls at instant `W`. -/
theorem C5_burst_across_window_boundary :
    ∀ (key : String) (N : ℕ) (W : ℚ), 0 < N → 0 < W →
      (memRun (fun _ => []) key N W
          (List.replicate N 0 ++ List.replicate N W)).2 =
        List.replicate (2 * N) true
      ∧ (redisRun (fun _ _ => 0) key N W
          (List.replicate N 0 ++ List.replicate N W)).2 =
        List.replicate (2 * N) true
      ∧ windowIdx 0 W = 0 ∧ windowIdx W W = 1 := by
  intro key N W hN hW
  obtain ⟨M, rfl⟩ : ∃ M, N = M + 1 := ⟨N - 1, by omega⟩
  have hidx0 : windowIdx 0 W = 0 := by
    simp [windowIdx]
  have hidx1 : windowIdx W W = 1 := by
    rw [windowIdx, div_self hW.ne']
    exact Int.floor_one
  have hbatch1 := @memRun_replicate key (M + 1) W hW
    (M + 1) 0 0 (fun _ => []) rfl (by omega)
  have hb1st : (memRun (fun _ => []) key (M + 1) W
      (List.replicate (M + 1) 0)).1 key = List.replicate (M + 1) 0 := by
    simpa using hbatch1.2
  have hfresh : ∀ t ∈ (memRun (fun _ => []) key (M + 1) W
      (List.replicate (M + 1) 0)).1 key, ¬(W - t < W) := by
    intro t ht
    rw [hb1st] at ht
    rw [List.eq_of_mem_replicate ht]
    simp
  have hstart := mem_allow_fresh (M + 1) hfresh (by omega)
  have hbatch2 := @memRun_replicate key (M + 1) W hW
    M 1 W ((rate_limit_allow_mem (memRun (fun _ => []) key (M + 1) W
      (List.replicate (M + 1) 0)).1 key (M + 1) W W).1) hstart.2 (by omega)
  refine ⟨?_, ?_, hidx0, hidx1⟩
  · have hsplit : List.replicate (M + 1) 0 ++ List.replicate (M + 1) W =
        List.replicate (M + 1) 0 ++ (W :: List.replicate M W) :=
      congrArg (fun l => List.replicate (M + 1) 0 ++ l)
        (List.replicate_succ W M)
    rw [hsplit, memRun_append]
    dsimp only
    rw [memRun_cons]
    dsimp only
    rw [hbatch1.1, hstart.1, hbatch2.1, ← List.replicate_succ,
      ← List.replicate_add]
    congr 1
    omega
  · have hr1 := @redisRun_replicate key (M + 1) W
      (M + 1) 0 (fun _ _ => 0) (by simp)
    have hframe := @redisRun_frame key (M + 1) W 1
      (List.replicate (M + 1) 0) (fun _ _ => 0) key
      (by
        intro t ht
        rw [List.eq_of_mem_replicate ht, hidx0]
        omega)
    have hr2 := @redisRun_replicate key (M + 1) W
      (M + 1) W ((redisRun (fun _ _ => 0) key (M + 1) W
        (List.replicate (M + 1) 0)).1)
      (by rw [hidx1, hframe]; simp)
    rw [redisRun_append]
    dsimp only
    rw [hr1.1, hr2.1, ← List.replicate_add]
    congr 1
    omega

/-- C5 witness: the theorem instantiated at limit 2 and a 60-second
window: four calls, two at instant 0 and two at instant 60, are all
admitted on both backends. -/
theorem C5_burst_across_window_boundary_witness :
    (memRun (fun _ => []) "client" 2 60
        (List.replicate 2 0 ++ List.replicate 2 60)).2 =
      List.replicate 4 true
    ∧ (redisRun (fun _ _ => 0) "client" 2 60
        (List.replicate 2 0 ++ List.replicate 2 60)).2 =
      List.replicate 4 true
    ∧ windowIdx 0 60 = 0 ∧ windowIdx 60 60 = 1 :=
  C5_burst_across_window_boundary "client" 2 60 (by norm_num) (by norm_num)

/-- Pruning at a later instant subsumes pruning at an earlier one. -/
theorem filter_window_twice {W now now' : ℚ} (h : now ≤ now')
    (l : List ℚ) :
    ((l.filter fun t => now - t < W).filter fun t => now' - t < W) =
      l.filter fun t => now' - t < W := by
  rw [List.filter_filter]
  refine List.filter_congr ?_
  intro a _
  by_cases hcase : now' - a < W
  · have h2 : now - a < W := by linarith
    simp [hcase, h2]
  · simp [hcase]

/-- C10: in the in-memory fallback, a denied call only prunes expired
timestamps — it records nothing new (the key's list after the call is the
pruned list, a sublist of what was there), and any later call behaves
exactly as if the denied call had never happened. -/
theorem C10_denied_calls_record_nothing :
    ∀ (st : MemState) (key : String) (limit : ℕ) (W now : ℚ),
      (rate_limit_allow_mem st key limit W now).2 = false →
      ((rate_limit_allow_mem st key limit W now).1 key =
          (st key).filter (fun t => now - t < W)
        ∧ List.Sublist ((rate_limit_allow_mem st key limit W now).1 key)
            (st key)
        ∧ ∀ now', now ≤ now' →
            rate_limit_allow_mem ((rate_limit_allow_mem st key limit W now).1)
              key limit W now' = rate_limit_allow_mem st key limit W now') := by
  intro st key limit W now hfalse
  by_cases hc : limit ≤ ((st key).filter fun t => now - t < W).length
  case neg => simp [rate_limit_allow_mem, hc] at hfalse
  have hst1key : (rate_limit_allow_mem st key limit W now).1 key =
      (st key).filter (fun t => now - t < W) := by
    simp [rate_limit_allow_mem, hc]
  have hframe : ∀ k, k ≠ key →
      (rate_limit_allow_mem st key limit W now).1 k = st k := by
    intro k hk
    simp [rate_limit_allow_mem, hc, hk]
  refine ⟨hst1key, hst1key ▸ List.filter_sublist _, ?_⟩
  intro now' hnow
  set st1 := (rate_limit_allow_mem st key limit W now).1 with hst1def
  have hfil : ((st1 key).filter fun t => now' - t < W) =
      (st key).filter fun t => now' - t < W := by
    rw [hst1key]
    exact filter_window_twice hnow _
  simp only [rate_limit_allow_mem]
  rw [hfil]
  by_cases hc' : limit ≤ ((st key).filter fun t => now' - t < W).length
  · rw [if_pos hc', if_pos hc']
    congr 1
    funext k
    by_cases hk : k = key
    · simp [hk]
    · simp [hk, hframe k hk]
  · rw [if_neg hc', if_neg hc']
    congr 1
    funext k
    by_cases hk : k = key
    · simp [hk]
    · simp [hk, hframe k hk]

/-- C10 witness: with limit 1 and one live timestamp, the call at instant
10 is denied; the theorem's conclusions at that denial, with the later
call at instant 20. -/
theorem C10_denied_calls_record_nothing_witness :
    ((rate_limit_allow_mem (fun _ => [0]) "c" 1 60 10).1 "c" =
        ([0] : List ℚ).filter (fun t => 10 - t < 60))
    ∧ List.Sublist ((rate_limit_allow_mem (fun _ => [0]) "c" 1 60 10).1 "c")
        ([0] : List ℚ)
    ∧ rate_limit_allow_mem ((rate_limit_allow_mem (fun _ => [0]) "c" 1 60 10).1)
        "c" 1 60 20 = rate_limit_allow_mem (fun _ => [0]) "c" 1 60 20 := by
  obtain ⟨h1, h2, h3⟩ := C10_denied_calls_record_nothing (fun _ => [0]) "c" 1 60 10
    (by norm_num [rate_limit_allow_mem])
  exact ⟨h1, h2, h3 20 (by norm_num)⟩

/-! ## Worker loop (worker.py lines 208-282)

One iteration of the `main` loop, from a popped job id to the terminal
record and the cleanup, is embedded as a pure state transformer.  The
store primitives (`get_job`, `set_job`, `get_audio`, `del_audio`) come
from the `queue` module, which is not among the sources; they are
modelled from the spec as finite maps keyed by job id.  The outcome of
`analyze_audio` on the written blob, and whether the audit write or the
terminal JobStore write raises, are inputs of the transformer; a raising
write is modelled as not committing. -/

/-- The job record JSON object as the worker patches it
(worker.py lines 208-219, 237, 241, 270-278): only the fields the worker
touches are modelled, each optional because `obj.update(patch)` merges
into whatever was stored. -/
structure JobObj where
  status : Option String := none
  started_at : Option ℕ := none
  finished_at : Option ℕ := none
  result : Option AnalysisResult := none
  error : Option String := none
  ms : Option ℚ := none

/-- Python string slicing `s[:n]`. -/
def takeChars (s : String) (n : ℕ) : String := String.mk (s.data.take n)

/-- The patch `{"status": "processing", "started_at": t}` (line 237). -/
def patchProcessing (t : ℕ) (o : JobObj) : JobObj :=
  { o with status := some "processing", started_at := some t }

/-- The patch `{"status": "failed", "error": e}` (lines 241 and 278). -/
def patchFailed (e : String) (o : JobObj) : JobObj :=
  { o with status := some "failed", error := some e }

/-- The patch `{"status": "done", "finished_at": t, "result": res,
"ms": ms}` (lines 270-275). -/
def patchDone (t : ℕ) (res : AnalysisResult) (ms : ℚ) (o : JobObj) : JobObj :=
  { o with
    status := some "done"
    finished_at := some t
    result := some res
    ms := some ms }

/-- The store state visible to one worker: job records, audio blobs (as
byte lists) and the audit rows already persisted (job ids only). -/
structure WorkerState where
  jobs : String → Option JobObj
  audio : String → Option (List ℕ)
  audit : List String

/-- Modelled from the spec: `set_job` of the missing `queue` module — an
idempotent overwrite of the record stored under the job id. -/
def set_job (st : WorkerState) (jid : String) (o : JobObj) : WorkerState :=
  { st with jobs := fun j => if j = jid then some o else st.jobs j }

/-- Modelled from the spec: `del_audio` of the missing `queue` module — a
best-effort delete after which a get for the id returns not-found. -/
def del_audio (st : WorkerState) (jid : String) : WorkerState :=
  { st with audio := fun j => if j = jid then none else st.audio j }

/-- Embedding of `_job_update` (worker.py lines 208-219): fetch the
current record (an empty object when absent or unparsable), apply the
patch, store the result. -/
def _job_update (st : WorkerState) (jid : String) (patch : JobObj → JobObj) :
    WorkerState :=
  set_job st jid (patch ((st.jobs jid).getD {}))

/-- Python's falsy test `if not audio` (worker.py line 240): true for an
absent blob and for an empty one. -/
def audio_missing : Option (List ℕ) → Bool
  | none => true
  | some b => b.isEmpty

/-- One iteration of the worker loop after a successful pop
(worker.py lines 236-282), also returning the list of `del_audio` calls
made.  `analysis` is the outcome of `analyze_audio` on the blob written to
the temp file; `persistRaises` makes the audit insert raise (swallowed,
lines 254-268); `doneWriteRaises` makes the terminal done-write raise
without committing, landing in the `except` branch (line 277) whose
failure message is `doneWriteErr`. -/
def runIter (st : WorkerState) (jid : String) (startedAt finishedAt : ℕ)
    (ms : ℚ) (analysis : Except String AnalysisResult)
    (persistRaises doneWriteRaises : Bool) (doneWriteErr : String) :
    WorkerState × List String :=
  let st := _job_update st jid (patchProcessing startedAt)
  if audio_missing (st.audio jid) then
    (_job_update st jid (patchFailed "audio_missing_or_expired"), [])
  else
    match analysis with
    | .error e =>
      (del_audio (_job_update st jid (patchFailed (takeChars e 200))) jid,
        [jid])
    | .ok res =>
      let st := if persistRaises then st else
        { st with audit := jid :: st.audit }
      if doneWriteRaises then
        (del_audio
          (_job_update st jid (patchFailed (takeChars doneWriteErr 200))) jid,
          [jid])
      else
        (del_audio (_job_update st jid (patchDone finishedAt res ms)) jid,
          [jid])

/-- Length bound of Python truncation `s[:n]`. -/
theorem takeChars_length_le (s : String) (n : ℕ) :
    (takeChars s n).length ≤ n := by
  show (s.data.take n).length ≤ n
  rw [List.length_take]
  exact min_le_left _ _

/-- A concrete store state holding one queued job with a stored blob,
used as a sample input in witnesses. -/
def cleanState (jid : String) : WorkerState :=
  { jobs := fun j => if j = jid then some { status := some "queued" } else none
    audio := fun j => if j = jid then some [0] else none
    audit := [] }

/-- A concrete store state holding one queued job whose blob is absent
(expired), used as a sample input in witnesses. -/
def expiredState (jid : String) : WorkerState :=
  { jobs := fun j => if j = jid then some { status := some "queued" } else none
    audio := fun _ => none
    audit := [] }

/-- C3: when the audio read for a popped job returns not-found, the job
record is written with status `failed` and error exactly
`audio_missing_or_expired`, and its status is not `done`. -/
theorem C3_audio_missing_fails_job :
    ∀ (st : WorkerState) (jid : String) (sA fA : ℕ) (ms : ℚ)
      (analysis : Except String AnalysisResult) (pr dwr : Bool)
      (dwe : String),
      st.audio jid = none →
      ∃ rec, (runIter st jid sA fA ms analysis pr dwr dwe).1.jobs jid
          = some rec
        ∧ rec.status = some "failed"
        ∧ rec.error = some "audio_missing_or_expired"
        ∧ rec.status ≠ some "done" := by
  intro st jid sA fA ms analysis pr dwr dwe h
  refine ⟨patchFailed "audio_missing_or_expired"
    (patchProcessing sA ((st.jobs jid).getD {})), ?_, rfl, rfl,
    by simp [patchFailed]⟩
  simp only [runIter]
  rw [show (_job_update st jid (patchProcessing sA)).audio jid = none from h]
  simp [audio_missing, _job_update, set_job]

/-- C3 witness: the theorem instantiated at a store whose blob for the
job is already expired. -/
theorem C3_audio_missing_fails_job_witness :
    ∃ rec, (runIter (expiredState "job1") "job1" 1 2 5 (Except.error "x")
        false false "y").1.jobs "job1" = some rec
      ∧ rec.status = some "failed"
      ∧ rec.error = some "audio_missing_or_expired"
      ∧ rec.status ≠ some "done" :=
  C3_audio_missing_fails_job (expiredState "job1") "job1" 1 2 5
    (Except.error "x") false false "y" rfl

/-- C6: whenever the blob read succeeds (returns a non-empty blob — the
falsy check of line 240 treats an empty one as missing), one iteration
calls `del_audio` for the job id exactly once — on the success path and
on every failure path, including a raising audit write or terminal
done-write — and a subsequent audio-store get for that id returns
not-found. -/
theorem C6_blob_deleted_exactly_once :
    ∀ (st : WorkerState) (jid : String) (sA fA : ℕ) (ms : ℚ)
      (analysis : Except String AnalysisResult) (pr dwr : Bool)
      (dwe : String) (blob : List ℕ),
      st.audio jid = some blob → blob ≠ [] →
      ((runIter st jid sA fA ms analysis pr dwr dwe).2.count jid = 1
        ∧ (runIter st jid sA fA ms analysis pr dwr dwe).1.audio jid
            = none) := by
  intro st jid sA fA ms analysis pr dwr dwe blob h hb
  have hmiss : audio_missing (some blob) = false := by
    cases blob with
    | nil => exact absurd rfl hb
    | cons a l => rfl
  simp only [runIter]
  rw [show (_job_update st jid (patchProcessing sA)).audio jid = some blob
    from h, hmiss]
  cases analysis with
  | error e => exact ⟨by simp, by simp [del_audio]⟩
  | ok res =>
    cases pr <;> cases dwr <;> exact ⟨by simp, by simp [del_audio]⟩

/-- C6 witness: the theorem instantiated at a store with a live blob, a
successful analysis, and both the audit write and the done-write
raising. -/
theorem C6_blob_deleted_exactly_once_witness :
    ((runIter (cleanState "job1") "job1" 1 2 5 (Except.error "boom")
        true true "oops").2.count "job1" = 1
      ∧ (runIter (cleanState "job1") "job1" 1 2 5 (Except.error "boom")
          true true "oops").1.audio "job1" = none) :=
  C6_blob_deleted_exactly_once (cleanState "job1") "job1" 1 2 5
    (Except.error "boom") true true "oops" [0] (by simp [cleanState])
    (by simp)

/-- A feature vector whose decoded duration (0.3s) is below the default
0.6s minimum, used as a sample input in witnesses. -/
noncomputable def shortFeatures : RawFeatures :=
  { exampleFeatures with duration_s := 0.3 }

open Classical in
/-- C8: a decoded waveform shorter than the configured minimum makes
`analyze_audio` raise exactly `too_short_audio`, and the worker then
records the job as failed with that error and writes no result. -/
theorem C8_too_short_audio_rejected :
    (∀ (minDuration : ℝ) (f : RawFeatures), f.duration_s < minDuration →
        analyze_audio minDuration f = .error "too_short_audio")
    ∧ (∀ (st : WorkerState) (jid : String) (sA fA : ℕ) (ms : ℚ)
        (pr dwr : Bool) (dwe : String) (blob : List ℕ),
        st.audio jid = some blob → blob ≠ [] →
        ∃ rec, (runIter st jid sA fA ms (Except.error "too_short_audio")
            pr dwr dwe).1.jobs jid = some rec
          ∧ rec.status = some "failed"
          ∧ rec.error = some "too_short_audio"
          ∧ rec.result = ((st.jobs jid).getD {}).result) := by
  constructor
  · intro minDuration f h
    rw [analyze_audio, if_pos h]
  · intro st jid sA fA ms pr dwr dwe blob h hb
    have hmiss : audio_missing (some blob) = false := by
      cases blob with
      | nil => exact absurd rfl hb
      | cons a l => rfl
    have hshort : takeChars "too_short_audio" 200 = "too_short_audio" := rfl
    refine ⟨patchFailed (takeChars "too_short_audio" 200)
      (patchProcessing sA ((st.jobs jid).getD {})), ?_, rfl,
      by rw [show (patchFailed (takeChars "too_short_audio" 200)
        (patchProcessing sA ((st.jobs jid).getD {}))).error
        = some (takeChars "too_short_audio" 200) from rfl, hshort], rfl⟩
    simp only [runIter]
    rw [show (_job_update st jid (patchProcessing sA)).audio jid = some blob
      from h, hmiss]
    simp [_job_update, set_job, del_audio]

/-- C8 witness: the theorem instantiated at a 0.3s waveform against the
0.6s default floor, and at a concrete store with a live blob. -/
theorem C8_too_short_audio_rejected_witness :
    (shortFeatures.duration_s < MIN_DURATION_S
      ∧ analyze_audio MIN_DURATION_S shortFeatures
          = .error "too_short_audio")
    ∧ (∃ rec, (runIter (cleanState "job1") "job1" 1 2 5
          (Except.error "too_short_audio") false false "y").1.jobs "job1"
            = some rec
        ∧ rec.status = some "failed"
        ∧ rec.error = some "too_short_audio"
        ∧ rec.result = (((cleanState "job1").jobs "job1").getD {}).result) :=
  ⟨⟨by norm_num [shortFeatures, exampleFeatures, MIN_DURATION_S],
    C8_too_short_audio_rejected.1 MIN_DURATION_S shortFeatures
      (by norm_num [shortFeatures, exampleFeatures, MIN_DURATION_S])⟩,
   C8_too_short_audio_rejected.2 (cleanState "job1") "job1" 1 2 5
     false false "y" [0] (by simp [cleanState]) (by simp)⟩

/-- C4 counterexample: the claim also asserts that the elapsed-millisecond
field is set whenever the job reaches a terminal state, "whether done or
failed"; but the failed-path patches (worker.py lines 241 and 278) write
no `ms` field, so a failing job ends with status `failed` and no `ms`. -/
theorem C4_failed_record_has_no_ms :
    ((runIter (cleanState "job1") "job1" 1 2 5 (Except.error "boom")
        false false "x").1.jobs "job1").map JobObj.status
      = some (some "failed")
    ∧ ((runIter (cleanState "job1") "job1" 1 2 5 (Except.error "boom")
        false false "x").1.jobs "job1").map JobObj.ms = some none := by
  constructor <;>
    simp [runIter, cleanState, audio_missing, _job_update, set_job,
      del_audio, patchProcessing, patchFailed]

/-- C4 (amended): starting from a record with no result, error or ms
field, one iteration always ends in a terminal status; the result field
is present iff the status is `done`; the error field is present iff the
status is `failed` and is truncated to at most 200 characters; and the
elapsed-milliseconds field `ms` is present iff the status is `done` —
the failure paths do not set it. -/
theorem C4_terminal_record_fields :
    ∀ (st : WorkerState) (jid : String) (sA fA : ℕ) (ms : ℚ)
      (analysis : Except String AnalysisResult) (pr dwr : Bool)
      (dwe : String),
      ((st.jobs jid).getD {}).result = none →
      ((st.jobs jid).getD {}).error = none →
      ((st.jobs jid).getD {}).ms = none →
      ∃ rec, (runIter st jid sA fA ms analysis pr dwr dwe).1.jobs jid
          = some rec
        ∧ (rec.status = some "done" ∨ rec.status = some "failed")
        ∧ (rec.result.isSome ↔ rec.status = some "done")
        ∧ (rec.error.isSome ↔ rec.status = some "failed")
        ∧ (∀ e, rec.error = some e → e.length ≤ 200)
        ∧ (rec.ms.isSome ↔ rec.status = some "done") := by
  intro st jid sA fA ms analysis pr dwr dwe h1 h2 h3
  cases hm : audio_missing (st.audio jid) with
  | true =>
    refine ⟨patchFailed "audio_missing_or_expired"
      (patchProcessing sA ((st.jobs jid).getD {})), ?_, Or.inr rfl, ?_, ?_,
      ?_, ?_⟩
    · simp only [runIter]
      rw [show audio_missing
        ((_job_update st jid (patchProcessing sA)).audio jid) = true from hm]
      simp [_job_update, set_job]
    · simp [patchFailed, patchProcessing, h1]
    · simp [patchFailed]
    · intro e he
      simp only [patchFailed, Option.some.injEq] at he
      subst he
      decide
    · simp [patchFailed, patchProcessing, h3]
  | false =>
    cases analysis with
    | error e =>
      refine ⟨patchFailed (takeChars e 200)
        (patchProcessing sA ((st.jobs jid).getD {})), ?_, Or.inr rfl, ?_, ?_,
        ?_, ?_⟩
      · simp only [runIter]
        rw [show audio_missing
          ((_job_update st jid (patchProcessing sA)).audio jid) = false
          from hm]
        simp [_job_update, set_job, del_audio]
      · simp [patchFailed, patchProcessing, h1]
      · simp [patchFailed]
      · intro e' he'
        simp only [patchFailed, Option.some.injEq] at he'
        subst he'
        exact takeChars_length_le e 200
      · simp [patchFailed, patchProcessing, h3]
    | ok res =>
      cases dwr with
      | true =>
        refine ⟨patchFailed (takeChars dwe 200)
          (patchProcessing sA ((st.jobs jid).getD {})), ?_, Or.inr rfl, ?_,
          ?_, ?_, ?_⟩
        · simp only [runIter]
          rw [show audio_missing
            ((_job_update st jid (patchProcessing sA)).audio jid) = false
            from hm]
          cases pr <;> simp [_job_update, set_job, del_audio]
        · simp [patchFailed, patchProcessing, h1]
        · simp [patchFailed]
        · intro e' he'
          simp only [patchFailed, Option.some.injEq] at he'
          subst he'
          exact takeChars_length_le dwe 200
        · simp [patchFailed, patchProcessing, h3]
      | false =>
        refine ⟨patchDone fA res ms
          (patchProcessing sA ((st.jobs jid).getD {})), ?_, Or.inl rfl, ?_,
          ?_, ?_, ?_⟩
        · simp only [runIter]
          rw [show audio_missing
            ((_job_update st jid (patchProcessing sA)).audio jid) = false
            from hm]
          cases pr <;> simp [_job_update, set_job, del_audio]
        · simp [patchDone]
        · simp [patchDone, patchProcessing, h2]
        · intro e' he'
          simp only [patchDone, patchProcessing] at he'
          rw [h2] at he'
          exact absurd he' (by simp)
        · simp [patchDone]

/-- C4 (amended) witness: the theorem instantiated at a concrete store
with a clean queued record and a failing analysis. -/
theorem C4_terminal_record_fields_witness :
    ∃ rec, (runIter (cleanState "job1") "job1" 1 2 5 (Except.error "boom")
        false false "x").1.jobs "job1" = some rec
      ∧ (rec.status = some "done" ∨ rec.status = some "failed")
      ∧ (rec.result.isSome ↔ rec.status = some "done")
      ∧ (rec.error.isSome ↔ rec.status = some "failed")
      ∧ (∀ e, rec.error = some e → e.length ≤ 200)
      ∧ (rec.ms.isSome ↔ rec.status = some "done") :=
  C4_terminal_record_fields (cleanState "job1") "job1" 1 2 5
    (Except.error "boom") false false "x" (by simp [cleanState])
    (by simp [cleanState]) (by simp [cleanState])

end VoiceSafe
